import Mathlib

/-!
Verification of the sampling subsystem of the EEVEE render engine
(`source/blender/draw/engines/eevee/eevee_sampling.cc`).

The embedding below translates the functions of that file into Lean.
Machine floating-point arithmetic is modelled by exact rational arithmetic
(`ℚ`), angles land in `ℝ` because of the factor `π`, machine integers are
modelled by `ℕ` (no value in the claims under scrutiny approaches a word
boundary).  Collaborators that live outside the translated file (the
`BLI_halton_*` low-discrepancy primitives, the header constants and the
web-pattern helpers of `eevee_sampling.hh`) are modelled from the
specification and marked as such in their doc comments.
-/

/- ------------------------------------------------------------------ -/
/- Low-discrepancy generator (spec §4.2)                               -/
/- ------------------------------------------------------------------ -/

/-- Modelled from the spec: the `BLI_halton_*` primitives are "a
low-discrepancy sequence built per-axis from digit-reversal in a given
prime base".  `radicalInverse b n` mirrors one axis: the base-`b` digits
`n = d₀ + d₁·b + d₂·b² + …` are reflected around the radix point giving
`0.d₀d₁d₂…` = `d₀/b + d₁/b² + …`. -/
def radicalInverseStep (b : ℕ) (d : ℕ) (r : ℚ) : ℚ := ((d : ℚ) + r) / b

def radicalInverse (b n : ℕ) : ℚ :=
  (Nat.digits b n).foldr (radicalInverseStep b) 0

/-- Modelled from the spec: 2D Halton-style draw with per-axis prime bases;
the additive offset is always zero in this core. -/
def BLI_halton_2d (b1 b2 n : ℕ) : ℚ × ℚ :=
  (radicalInverse b1 n, radicalInverse b2 n)

/-- Modelled from the spec: 3D Halton-style draw with per-axis prime bases;
the additive offset is always zero in this core. -/
def BLI_halton_3d (b1 b2 b3 n : ℕ) : ℚ × ℚ × ℚ :=
  (radicalInverse b1 n, radicalInverse b2 n, radicalInverse b3 n)

/-- `fractf x = x - floorf x`, the fractional-part helper used by `step`. -/
def fractf (q : ℚ) : ℚ := Int.fract q

theorem foldr_radical_nonneg_lt_one (b : ℕ) (hb : 2 ≤ b) :
    ∀ l : List ℕ, (∀ d ∈ l, d < b) →
      0 ≤ l.foldr (radicalInverseStep b) 0 ∧
        l.foldr (radicalInverseStep b) 0 < 1 := by
  intro l
  induction l with
  | nil => intro _; norm_num
  | cons d tl ih =>
    intro hlt
    obtain ⟨ih0, ih1⟩ := ih (fun x hx => hlt x (List.mem_cons_of_mem _ hx))
    have hd : d < b := hlt d (List.mem_cons_self _ _)
    have hbq : (0 : ℚ) < b := by positivity
    rw [List.foldr_cons, radicalInverseStep]
    constructor
    · apply div_nonneg _ (le_of_lt hbq)
      positivity
    · rw [div_lt_one hbq]
      have : (d : ℚ) + 1 ≤ b := by exact_mod_cast hd
      linarith

theorem radicalInverse_nonneg (b n : ℕ) (hb : 2 ≤ b) :
    0 ≤ radicalInverse b n :=
  (foldr_radical_nonneg_lt_one b hb _
    (fun _ hd => Nat.digits_lt_base (by omega) hd)).1

theorem radicalInverse_lt_one (b n : ℕ) (hb : 2 ≤ b) :
    radicalInverse b n < 1 :=
  (foldr_radical_nonneg_lt_one b hb _
    (fun _ hd => Nat.digits_lt_base (by omega) hd)).2

theorem radicalInverse_unit (b n : ℕ) (hb : 2 ≤ b) :
    0 ≤ radicalInverse b n ∧ radicalInverse b n < 1 :=
  ⟨radicalInverse_nonneg b n hb, radicalInverse_lt_one b n hb⟩

theorem fractf_unit (q : ℚ) : 0 ≤ fractf q ∧ fractf q < 1 :=
  ⟨Int.fract_nonneg q, Int.fract_lt_one q⟩

/- ------------------------------------------------------------------ -/
/- `Sampling::step` dimension generation (lines 130-243)               -/
/- ------------------------------------------------------------------ -/

/-- The values written by `Sampling::step` into the `SAMPLING_DIMENSION_COUNT`
slots of `data_.dimensions`, in source order: FILTER_U, FILTER_V, TIME,
CLOSURE, RAYTRACE_X, LENS_U, LENS_V, LIGHTPROBE, TRANSPARENCY, AO_U, AO_V,
AO_W, CURVES_U, SHADOW_U/V/W, RAYTRACE_U/V/W, SHADOW_I/J/K, VOLUME_U/V/W,
SHADOW_X, SHADOW_Y, SSS_U, SSS_V, UNUSED_0/1/2.  The interactive divisors
`interactive_sample_aa_/raytrace_/volume_` and the film scaling factor are
header values not present in the translated file and are taken as
parameters. -/
def step_dimensions (sample scaling aa rt vol : ℕ) (interactive : Bool) :
    List ℚ :=
  let sample_filter0 := sample / (scaling * scaling)
  let sample_filter := if interactive then sample_filter0 % aa else sample_filter0
  let r1 := BLI_halton_2d 2 3 (sample_filter + 1)
  let r2 := BLI_halton_3d 5 7 3 (sample + 1)
  let sample_raytrace := if interactive then sample % rt else sample
  let r3 := BLI_halton_3d 5 7 11 (sample_raytrace * 13 + 1)
  let r4 := BLI_halton_3d 2 3 5 (sample + 1)
  let sample_volume := if interactive then sample % vol else sample
  let r5 := BLI_halton_3d 2 3 5 (sample_volume + 1)
  let r6 := BLI_halton_2d 2 3 (sample * 5 + 1)
  [fractf (r1.1 + 1 / 2), fractf (r1.2 + 2 / 3), r1.1, r1.2, r1.1,
   r2.1, r2.2.1, r2.1, r2.2.1, r2.1, r2.2.1, r2.2.2, r2.1,
   r3.1, r3.2.1, r3.2.2, r3.1, r3.2.1, r3.2.2,
   fractf (r4.1 + 1 / 2), fractf (r4.2.1 + 2 / 3), fractf (r4.2.2 + 4 / 5),
   fractf (r5.1 + 1 / 2), fractf (r5.2.1 + 2 / 3), fractf (r5.2.2 + 4 / 5),
   r6.1, r6.2, r6.1, r6.2,
   0, 0, 0]

section
attribute [local irreducible] radicalInverse fractf
set_option maxHeartbeats 1000000 in
/-- Claim C1: every regenerated `DimensionVector` slot lies in `[0, 1)`, for every
sample counter value, film scaling factor, interactive divisor and
interactive flag. -/
theorem step_dimensions_mem_unit_interval
    (sample scaling aa rt vol : ℕ) (interactive : Bool) :
    ∀ x ∈ step_dimensions sample scaling aa rt vol interactive,
      0 ≤ x ∧ x < 1 := by
  simp only [step_dimensions, BLI_halton_2d, BLI_halton_3d,
    List.forall_mem_cons, List.forall_mem_nil, and_true]
  and_intros
  all_goals first
    | exact (fractf_unit _).1
    | exact (fractf_unit _).2
    | exact (radicalInverse_unit _ _ (by norm_num)).1
    | exact (radicalInverse_unit _ _ (by norm_num)).2
    | norm_num
end

/-- Witness for claim C1: concrete instantiation at the first sample of a
non-interactive session; the slot `SAMPLING_UNUSED_0` holds `0 ∈ [0, 1)`. -/
theorem step_dimensions_mem_unit_interval_witness :
    0 ≤ (0 : ℚ) ∧ (0 : ℚ) < 1 :=
  step_dimensions_mem_unit_interval 0 1 8 32 32 false 0
    (by simp [step_dimensions])

/- ------------------------------------------------------------------ -/
/- SampleCounterState machine (lines 99-128, 239-255)                  -/
/- ------------------------------------------------------------------ -/

/-- The mutable counter state of `Sampling`: `sample_` (absolute index),
`viewport_sample_`, `interactive_mode_` and `reset_`. -/
structure SamplingState where
  sample : ℕ
  viewport_sample : ℕ
  interactive_mode : Bool
  reset : Bool

/-- `Sampling::end_sync` (lines 99-128).  `interactive_mode_threshold` and
`interactive_sample_max_` are header constants absent from the translated
file; modelled from the spec ("a fixed threshold", "a fixed
interactive-sample-cap") as parameters `threshold` and `cap`.  The
per-frame flags `is_viewport()`, `SCE_EEVEE_TAA_REPROJECTION` and
`is_viewport_image_render` are inputs of the call. -/
def end_sync (threshold cap : ℕ)
    (is_viewport taa_reprojection is_viewport_image_render : Bool)
    (st : SamplingState) : SamplingState :=
  let vp := if st.reset then 0 else st.viewport_sample
  if is_viewport then
    let disabled : Bool := !taa_reprojection || is_viewport_image_render
    if disabled then
      { st with viewport_sample := vp, interactive_mode := false, sample := vp }
    else if vp < threshold then
      if vp < cap then
        { st with viewport_sample := vp, interactive_mode := true,
                  sample := st.sample % cap }
      else
        { st with viewport_sample := vp, interactive_mode := true,
                  sample := cap }
    else
      { st with viewport_sample := vp, interactive_mode := false }
  else
    { st with viewport_sample := vp }

/-- The counter mutations of `Sampling::step` (lines 239-242): increment
both counters and clear the reset-pending flag. -/
def step_counters (st : SamplingState) : SamplingState :=
  { st with sample := st.sample + 1, viewport_sample := st.viewport_sample + 1,
            reset := false }

/-- `Sampling::reset` (lines 245-249): record a pending reset request. -/
def request_reset (st : SamplingState) : SamplingState :=
  { st with reset := true }

/-- Operations of a render session acting on the counter state.
`Sampling::init(const Scene *)` (lines 28-88) writes `sample_count_`,
`motion_blur_steps_`, the DOF web fields and the clamp data only; it leaves
the two counters and the `interactive_mode_`/`reset_` flags unchanged, so
on `SamplingState` it is the identity. -/
inductive Op where
  | initScene
  | endSync (is_viewport taa_reprojection is_viewport_image_render : Bool)
  | step
  | requestReset
deriving DecidableEq

def runOp (threshold cap : ℕ) : Op → SamplingState → SamplingState
  | Op.initScene, st => st
  | Op.endSync v r i, st => end_sync threshold cap v r i st
  | Op.step, st => step_counters st
  | Op.requestReset, st => request_reset st

def runOps (threshold cap : ℕ) (ops : List Op) (st : SamplingState) :
    SamplingState :=
  ops.foldl (fun s op => runOp threshold cap op s) st

/-- Initial counter state (all header member initializers are zero/false). -/
def initState : SamplingState := ⟨0, 0, false, false⟩

/-- Invariant of reset-free render sessions: no reset is pending and the
absolute index never exceeds the viewport-relative index. -/
def CounterInv (st : SamplingState) : Prop :=
  st.reset = false ∧ st.sample ≤ st.viewport_sample

theorem counterInv_runOp (threshold cap : ℕ) (op : Op) (st : SamplingState)
    (hop : op ≠ Op.requestReset) (h : CounterInv st) :
    CounterInv (runOp threshold cap op st) := by
  obtain ⟨hr, hle⟩ := h
  cases op with
  | initScene => exact ⟨hr, hle⟩
  | requestReset => exact absurd rfl hop
  | step => exact ⟨rfl, by simp [runOp, step_counters]; omega⟩
  | endSync v r i =>
    simp only [runOp, end_sync, hr, Bool.false_eq_true, if_false, CounterInv]
    split
    · split
      · exact ⟨rfl, le_refl _⟩
      · split
        · split
          · exact ⟨rfl, le_trans (Nat.mod_le _ _) hle⟩
          · refine ⟨rfl, ?_⟩
            show cap ≤ st.viewport_sample
            omega
        · exact ⟨rfl, hle⟩
    · exact ⟨rfl, hle⟩

theorem counterInv_runOps (threshold cap : ℕ) (ops : List Op)
    (hops : ∀ op ∈ ops, op ≠ Op.requestReset) :
    ∀ st : SamplingState, CounterInv st →
      CounterInv (runOps threshold cap ops st) := by
  induction ops with
  | nil => intro st h; exact h
  | cons op tl ih =>
    intro st h
    have h1 : CounterInv (runOp threshold cap op st) :=
      counterInv_runOp threshold cap op st
        (hops op (List.mem_cons_self _ _)) h
    simpa [runOps, List.foldl_cons] using
      ih (fun o ho => hops o (List.mem_cons_of_mem _ ho))
        (runOp threshold cap op st) h1

/-- Counterexample for claim C4: with interactive cap 4 and threshold 6, five
`step` calls take the absolute index to 5, and an `end_sync` in a viewport
frame with reprojection enabled then latches it back down to the cap 4 —
the absolute sample index decreases although no reset was requested. -/
theorem sample_monotonic_cex :
    (runOp 6 4 (Op.endSync true true false)
        (runOps 6 4 [Op.step, Op.step, Op.step, Op.step, Op.step]
          initState)).sample <
      (runOps 6 4 [Op.step, Op.step, Op.step, Op.step, Op.step]
        initState).sample := by
  decide

/-- Claim C4 (amended): in a render session without reset requests, the absolute
sample index never decreases across `init`/`end_sync`/`step`, except that an
`end_sync` call may lower it to exactly the interactive sample cap (the
interactive latch). -/
theorem sample_monotonic_amended (threshold cap : ℕ) (ops : List Op) (op : Op)
    (hops : ∀ o ∈ ops, o ≠ Op.requestReset) (hop : op ≠ Op.requestReset) :
    (runOps threshold cap ops initState).sample ≤
        (runOp threshold cap op (runOps threshold cap ops initState)).sample ∨
      ((runOp threshold cap op (runOps threshold cap ops initState)).sample
          = cap ∧
        cap < (runOps threshold cap ops initState).sample) := by
  obtain ⟨hr, hle⟩ :=
    counterInv_runOps threshold cap ops hops initState ⟨rfl, le_refl 0⟩
  set st := runOps threshold cap ops initState with hst
  cases op with
  | initScene => exact Or.inl (le_refl _)
  | requestReset => exact absurd rfl hop
  | step =>
    left
    show st.sample ≤ st.sample + 1
    omega
  | endSync v r i =>
    simp only [runOp, end_sync, hr, Bool.false_eq_true, if_false]
    split
    · split
      · left
        show st.sample ≤ st.viewport_sample
        exact hle
      · split
        · split
          · left
            rename_i hvc
            show st.sample ≤ st.sample % cap
            rw [Nat.mod_eq_of_lt (lt_of_le_of_lt hle hvc)]
          · rcases le_or_lt st.sample cap with hsc | hsc
            · left
              show st.sample ≤ cap
              exact hsc
            · right
              exact ⟨rfl, hsc⟩
        · left; exact le_refl _
    · left; exact le_refl _

/-- Witness for claim C4 (amended): concrete instantiation, one `step` after one
`step`. -/
theorem sample_monotonic_amended_witness :
    (runOps 6 4 [Op.step] initState).sample ≤
        (runOp 6 4 Op.step (runOps 6 4 [Op.step] initState)).sample ∨
      ((runOp 6 4 Op.step (runOps 6 4 [Op.step] initState)).sample = 4 ∧
        4 < (runOps 6 4 [Op.step] initState).sample) :=
  sample_monotonic_amended 6 4 [Op.step] Op.step (by decide) (by decide)

/-- Claim C5: an `end_sync` in a viewport frame with no pending reset, the
viewport-relative counter below the interactive threshold, temporal
reprojection enabled and image-render-in-viewport inactive sets the
interactive flag, and if the viewport-relative counter has moreover reached
the interactive cap the absolute counter is latched to exactly the cap
value. -/
theorem end_sync_interactive_latch (threshold cap : ℕ) (st : SamplingState)
    (hreset : st.reset = false) (hth : st.viewport_sample < threshold) :
    (end_sync threshold cap true true false st).interactive_mode = true ∧
      (cap ≤ st.viewport_sample →
        (end_sync threshold cap true true false st).sample = cap) := by
  simp only [end_sync, hreset, Bool.false_eq_true, if_false, Bool.not_true,
    Bool.false_or, if_true, if_pos hth]
  by_cases hvc : st.viewport_sample < cap
  · rw [if_pos hvc]
    exact ⟨rfl, fun h => absurd hvc (not_lt.mpr h)⟩
  · rw [if_neg hvc]
    exact ⟨rfl, fun _ => rfl⟩

/-- Witness for claim C5: state with both counters at 5, threshold 6, cap 4. -/
theorem end_sync_interactive_latch_witness :
    (end_sync 6 4 true true false ⟨5, 5, false, false⟩).interactive_mode
        = true ∧
      (4 ≤ (5 : ℕ) →
        (end_sync 6 4 true true false ⟨5, 5, false, false⟩).sample = 4) :=
  end_sync_interactive_latch 6 4 ⟨5, 5, false, false⟩ rfl (by decide)

/-- Invariant backing C6: whenever the reset-pending flag is still set, the
viewport-relative counter is already zero (only `step` clears the flag, and
it is the only operation that moves the counter away from zero). -/
def ResetZero (st : SamplingState) : Prop :=
  st.reset = true → st.viewport_sample = 0

theorem end_sync_reset_eq (threshold cap : ℕ) (v r i : Bool)
    (st : SamplingState) :
    (end_sync threshold cap v r i st).reset = st.reset := by
  simp only [end_sync]
  repeat' split
  all_goals rfl

theorem end_sync_viewport_of_reset (threshold cap : ℕ) (v r i : Bool)
    (st : SamplingState) (h : st.reset = true) :
    (end_sync threshold cap v r i st).viewport_sample = 0 := by
  simp only [end_sync, h, if_true]
  repeat' split
  all_goals rfl

theorem end_sync_viewport_of_not_reset (threshold cap : ℕ) (v r i : Bool)
    (st : SamplingState) (h : st.reset = false) :
    (end_sync threshold cap v r i st).viewport_sample = st.viewport_sample := by
  simp only [end_sync, h, Bool.false_eq_true, if_false]
  repeat' split
  all_goals rfl

theorem resetZero_runOp (threshold cap : ℕ) (op : Op) (st : SamplingState)
    (hop : op ≠ Op.requestReset) (h : ResetZero st) :
    ResetZero (runOp threshold cap op st) := by
  cases op with
  | initScene => exact h
  | requestReset => exact absurd rfl hop
  | step => intro hr; exact absurd hr (by simp [runOp, step_counters])
  | endSync v r i =>
    intro hr
    rw [runOp] at hr ⊢
    rw [end_sync_reset_eq] at hr
    exact end_sync_viewport_of_reset threshold cap v r i st hr

theorem resetZero_runOps (threshold cap : ℕ) (ops : List Op)
    (hops : ∀ op ∈ ops, op ≠ Op.requestReset) :
    ∀ st : SamplingState, ResetZero st →
      ResetZero (runOps threshold cap ops st) := by
  induction ops with
  | nil => intro st h; exact h
  | cons op tl ih =>
    intro st h
    have h1 : ResetZero (runOp threshold cap op st) :=
      resetZero_runOp threshold cap op st
        (hops op (List.mem_cons_self _ _)) h
    simpa [runOps, List.foldl_cons] using
      ih (fun o ho => hops o (List.mem_cons_of_mem _ ho))
        (runOp threshold cap op st) h1

theorem end_sync_viewport_fixed (threshold cap : ℕ) (v r i : Bool)
    (st : SamplingState) (h : ResetZero st) :
    (end_sync threshold cap v r i st).viewport_sample = st.viewport_sample := by
  by_cases hr : st.reset = true
  · rw [end_sync_viewport_of_reset threshold cap v r i st hr, h hr]
  · exact end_sync_viewport_of_not_reset threshold cap v r i st
      (Bool.not_eq_true _ ▸ (by simpa using hr))

/-- Claim C6: `reset()` followed by `end_sync()` zeroes the viewport-relative
counter; after that, any reset-free sequence of operations followed by
another `end_sync()` leaves the viewport-relative counter unchanged — the
counter is zeroed exactly once per reset request. -/
theorem reset_zeroes_viewport_once (threshold cap : ℕ)
    (v1 r1 i1 v2 r2 i2 : Bool) (st : SamplingState) (w : List Op)
    (hw : ∀ o ∈ w, o ≠ Op.requestReset) :
    (end_sync threshold cap v1 r1 i1 (request_reset st)).viewport_sample
        = 0 ∧
      (end_sync threshold cap v2 r2 i2
          (runOps threshold cap w
            (end_sync threshold cap v1 r1 i1
              (request_reset st)))).viewport_sample =
        (runOps threshold cap w
          (end_sync threshold cap v1 r1 i1
            (request_reset st))).viewport_sample := by
  have h1 : (end_sync threshold cap v1 r1 i1
      (request_reset st)).viewport_sample = 0 :=
    end_sync_viewport_of_reset threshold cap v1 r1 i1 (request_reset st) rfl
  refine ⟨h1, ?_⟩
  have h2 : ResetZero (end_sync threshold cap v1 r1 i1 (request_reset st)) :=
    fun _ => h1
  exact end_sync_viewport_fixed threshold cap v2 r2 i2 _
    (resetZero_runOps threshold cap w hw _ h2)

/-- Witness for claim C6: concrete session with one intervening `step`. -/
theorem reset_zeroes_viewport_once_witness :
    (end_sync 6 4 true true false (request_reset initState)).viewport_sample
        = 0 ∧
      (end_sync 6 4 true true false
          (runOps 6 4 [Op.step]
            (end_sync 6 4 true true false
              (request_reset initState)))).viewport_sample =
        (runOps 6 4 [Op.step]
          (end_sync 6 4 true true false
            (request_reset initState))).viewport_sample :=
  reset_zeroes_viewport_once 6 4 true true false true true false initState
    [Op.step] (by decide)

/- ------------------------------------------------------------------ -/
/- `Sampling::init` sample-count derivation (lines 28-88)              -/
/- ------------------------------------------------------------------ -/

/-- `divide_ceil_u` of `BLI_math_base.h`: ceiling division on unsigned
integers. -/
def divide_ceil_u (a b : ℕ) : ℕ := (a + b - 1) / b

/-- Modelled from the spec: `sampling_web_sample_count_get` of
`eevee_sampling.hh` is not in the translated file; per spec §4.3 the web
pattern has one center sample plus `k · density` samples on ring `k`, so
`ring_count` rings hold `density · ring_count(ring_count+1)/2 + 1`
samples. -/
def sampling_web_sample_count_get (web_density ring_count : ℕ) : ℕ :=
  web_density * (ring_count * (ring_count + 1) / 2) + 1

/-- Modelled from the spec: `sampling_web_ring_count_get` of
`eevee_sampling.hh` is not in the translated file; per spec §4.1 it inverts
the web sample count, giving the least ring count whose web pattern holds at
least the requested sample count. -/
def sampling_web_ring_count_get (web_density sample_count : ℕ) : ℕ :=
  ((List.range (sample_count + 1)).find?
      (fun R =>
        decide (sample_count ≤ sampling_web_sample_count_get web_density R))).getD
    sample_count

/-- The fields of `Sampling` written by the sample-count part of
`init(const Scene *)`. -/
structure InitResult where
  sample_count : ℕ
  motion_blur_steps : ℕ
  dof_ring_count : ℕ
  dof_sample_count : ℕ

/-- `Sampling::init(const Scene *)` lines 28-79: sample-count derivation.
Scene/instance inputs (`view_layer->samples`, `taa_render_samples`,
`taa_samples`, preview pixel size, motion-blur flag and step count, DOF
jitter flag) are arguments; `dof_web_density_` and
`infinite_sample_count_` are header constants taken as parameters. -/
def init_sample_count (is_viewport is_image_render : Bool)
    (view_layer_samples taa_render_samples taa_samples : ℕ)
    (pixel_size : ℕ) (mblur_enabled : Bool) (motion_blur_steps_cfg : ℕ)
    (dof_jitter : Bool) (dof_web_density infinite_sample_count : ℕ) :
    InitResult :=
  let render_sample_count :=
    if 0 < view_layer_samples then view_layer_samples else taa_render_samples
  let sc0 := if is_viewport then taa_samples else render_sample_count
  let sc1 := if is_image_render then max 1 sc0 else sc0
  let sc2 := if sc1 = 0 then infinite_sample_count else sc1
  let sc3 := if is_viewport && decide (1 < pixel_size) then
      max sc2 (pixel_size * pixel_size)
    else sc2
  let msteps :=
    if !is_viewport && mblur_enabled then motion_blur_steps_cfg else 1
  let sc4 := divide_ceil_u sc3 msteps
  if dof_jitter then
    let ring_count :=
      if sc4 = infinite_sample_count then 6
      else sampling_web_ring_count_get dof_web_density sc4
    let dsc := sampling_web_sample_count_get dof_web_density ring_count
    let sc5 := divide_ceil_u sc4 dsc * dsc
    ⟨sc5 * msteps, msteps, ring_count, dsc⟩
  else
    ⟨sc4 * msteps, msteps, 0, 1⟩

/-- Claim C9: with DOF jitter enabled, `init` leaves `dof_sample_count_`
equal to the web-pattern sample count of the derived ring count, and that
count divides the final `sample_count_`, including after the final
multiplication by the motion-blur step count. -/
theorem init_dof_sample_count_dvd (is_viewport is_image_render : Bool)
    (view_layer_samples taa_render_samples taa_samples : ℕ)
    (pixel_size : ℕ) (mblur_enabled : Bool) (motion_blur_steps_cfg : ℕ)
    (dof_jitter : Bool) (dof_web_density infinite_sample_count : ℕ)
    (hj : dof_jitter = true) :
    (init_sample_count is_viewport is_image_render view_layer_samples
          taa_render_samples taa_samples pixel_size mblur_enabled
          motion_blur_steps_cfg dof_jitter dof_web_density
          infinite_sample_count).dof_sample_count =
        sampling_web_sample_count_get dof_web_density
          (init_sample_count is_viewport is_image_render view_layer_samples
            taa_render_samples taa_samples pixel_size mblur_enabled
            motion_blur_steps_cfg dof_jitter dof_web_density
            infinite_sample_count).dof_ring_count ∧
      (init_sample_count is_viewport is_image_render view_layer_samples
          taa_render_samples taa_samples pixel_size mblur_enabled
          motion_blur_steps_cfg dof_jitter dof_web_density
          infinite_sample_count).dof_sample_count ∣
        (init_sample_count is_viewport is_image_render view_layer_samples
          taa_render_samples taa_samples pixel_size mblur_enabled
          motion_blur_steps_cfg dof_jitter dof_web_density
          infinite_sample_count).sample_count := by
  simp only [init_sample_count, hj, if_true]
  exact ⟨trivial, dvd_mul_of_dvd_left (dvd_mul_left _ _) _⟩

/-- Witness for claim C9: viewport render with `taa_samples = 10` and web
density 6 — the derived ring count is 2, the web sample count 19, and the
final sample count 19, a multiple of 19. -/
theorem init_dof_sample_count_dvd_witness :
    (init_sample_count true false 0 64 10 1 false 1 true 6
          4294967295).dof_sample_count =
        sampling_web_sample_count_get 6
          (init_sample_count true false 0 64 10 1 false 1 true 6
            4294967295).dof_ring_count ∧
      (init_sample_count true false 0 64 10 1 false 1 true 6
          4294967295).dof_sample_count ∣
        (init_sample_count true false 0 64 10 1 false 1 true 6
          4294967295).sample_count :=
  init_dof_sample_count_dvd true false 0 64 10 1 false 1 true 6 4294967295 rfl

/- ------------------------------------------------------------------ -/
/- `Sampling::dof_disk_sample_get` (lines 310-343)                     -/
/- ------------------------------------------------------------------ -/

theorem triangle_succ (R : ℕ) :
    (R + 1) * (R + 2) / 2 = R * (R + 1) / 2 + (R + 1) := by
  obtain ⟨m, hm⟩ := Nat.even_mul_succ_self R
  have h2 : (R + 1) * (R + 2) = R * (R + 1) + 2 * (R + 1) := by ring
  omega

theorem web_sample_count_succ (d R : ℕ) :
    sampling_web_sample_count_get d (R + 1) =
      sampling_web_sample_count_get d R + (R + 1) * d := by
  have h := triangle_succ R
  simp only [sampling_web_sample_count_get]
  rw [show R + 1 + 1 = R + 2 by ring, h]
  ring

theorem web_sample_count_mono (d : ℕ) {r R : ℕ} (h : r ≤ R) :
    sampling_web_sample_count_get d r ≤ sampling_web_sample_count_get d R := by
  have h1 : r * (r + 1) ≤ R * (R + 1) := Nat.mul_le_mul h (by omega)
  have h2 : r * (r + 1) / 2 ≤ R * (R + 1) / 2 := Nat.div_le_div_right h1
  have h3 := Nat.mul_le_mul (Nat.le_refl d) h2
  simp only [sampling_web_sample_count_get]
  omega

/-- The `while (s >= samples_passed)` loop of `dof_disk_sample_get`
(lines 332-339), written with explicit fuel; `s + 1` units of fuel always
suffice because `samples_passed` strictly increases on every iteration that
runs. -/
def dof_web_loop (web_density s : ℕ) :
    ℕ → ℕ → ℕ → ℕ → ℕ → ℕ × ℕ × ℕ
  | 0, ring, ring_sample_count, ring_sample, _ =>
      (ring, ring_sample_count, ring_sample)
  | fuel + 1, ring, ring_sample_count, ring_sample, samples_passed =>
      if samples_passed ≤ s then
        dof_web_loop web_density s fuel (ring + 1) ((ring + 1) * web_density)
          ((s - samples_passed + 1) % ((ring + 1) * web_density))
          (samples_passed + (ring + 1) * web_density)
      else (ring, ring_sample_count, ring_sample)

/-- `Sampling::dof_disk_sample_get` (lines 310-343).  The member fields
`dof_web_density_`, `dof_ring_count_`, `dof_sample_count_` and `sample_`
are arguments; the float constant `M_PI` is the parameter `pi_c` (all
statements below hold for every rational stand-in for π). -/
def dof_disk_sample_get (pi_c : ℚ)
    (dof_web_density dof_ring_count dof_sample_count sample : ℕ) : ℚ × ℚ :=
  if dof_ring_count = 0 then (0, 0)
  else
    let s := (sample - 1) * (dof_web_density - 1) % dof_sample_count
    let out := dof_web_loop dof_web_density s (s + 1) 0 1 1 1
    ((out.1 : ℚ) / (dof_ring_count : ℚ),
      2 * pi_c * (out.2.2 : ℚ) / (out.2.1 : ℚ))

theorem dof_web_loop_post (d R s : ℕ)
    (hs : s < sampling_web_sample_count_get d R) :
    ∀ (fuel ring rsc rs passed : ℕ),
      passed = sampling_web_sample_count_get d ring →
      ring ≤ R → rs ≤ rsc → 1 ≤ rsc →
      (dof_web_loop d s fuel ring rsc rs passed).1 ≤ R ∧
        (dof_web_loop d s fuel ring rsc rs passed).2.2 ≤
          (dof_web_loop d s fuel ring rsc rs passed).2.1 ∧
        1 ≤ (dof_web_loop d s fuel ring rsc rs passed).2.1 := by
  intro fuel
  induction fuel with
  | zero =>
    intro ring rsc rs passed _ hring hrs hrsc
    exact ⟨hring, hrs, hrsc⟩
  | succ fuel ih =>
    intro ring rsc rs passed hpassed hring hrs hrsc
    rw [dof_web_loop]
    by_cases hb : passed ≤ s
    · rw [if_pos hb]
      rcases Nat.eq_zero_or_pos d with hd | hd
      · exfalso
        simp only [sampling_web_sample_count_get, hd, Nat.zero_mul] at hs hpassed
        omega
      · have hlt : ring < R := by
          by_contra hcon
          have hRr : R ≤ ring := by omega
          have := web_sample_count_mono d hRr
          omega
        have hpos : 1 ≤ (ring + 1) * d := Nat.mul_pos (Nat.succ_pos ring) hd
        exact ih (ring + 1) ((ring + 1) * d)
          ((s - passed + 1) % ((ring + 1) * d)) (passed + (ring + 1) * d)
          (by rw [hpassed, web_sample_count_succ])
          (by omega)
          (Nat.le_of_lt (Nat.mod_lt _ (by omega)))
          hpos
    · rw [if_neg hb]
      exact ⟨hring, hrs, hrsc⟩

/-- Claim C3 (amended): under the invariant that `init` established
(`dof_sample_count_` is the web sample count of the ring count), the DOF
web sampler returns `(0, 0)` when the ring count is 0, and for ring count
> 0 the radius lies in `[0, 1]` and the angle in the closed interval
`[0, 2π]` — the angle equals exactly `2π` (and is not `< 2π`) whenever the
sample lands on the web center, where `ring_sample = ring_sample_count = 1`
survive from their initial values. -/
theorem dof_disk_sample_get_bounds (pi_c : ℚ) (d R dsc sample : ℕ)
    (hpi : 0 ≤ pi_c) (hdsc : dsc = sampling_web_sample_count_get d R) :
    (R = 0 → dof_disk_sample_get pi_c d R dsc sample = (0, 0)) ∧
      (0 < R →
        0 ≤ (dof_disk_sample_get pi_c d R dsc sample).1 ∧
          (dof_disk_sample_get pi_c d R dsc sample).1 ≤ 1 ∧
          0 ≤ (dof_disk_sample_get pi_c d R dsc sample).2 ∧
          (dof_disk_sample_get pi_c d R dsc sample).2 ≤ 2 * pi_c) := by
  constructor
  · intro h
    simp [dof_disk_sample_get, h]
  · intro hR
    have hRne : R ≠ 0 := by omega
    have hdscpos : 0 < dsc := by
      rw [hdsc]; simp only [sampling_web_sample_count_get]; omega
    simp only [dof_disk_sample_get, hRne, if_false]
    set s := (sample - 1) * (d - 1) % dsc with hsdef
    have hs : s < sampling_web_sample_count_get d R := by
      rw [← hdsc]; exact Nat.mod_lt _ hdscpos
    obtain ⟨h1, h2, h3⟩ :=
      dof_web_loop_post d R s hs (s + 1) 0 1 1 1 rfl (Nat.zero_le R)
        (le_refl 1) (le_refl 1)
    set out := dof_web_loop d s (s + 1) 0 1 1 1 with hout
    have hRQ : (0 : ℚ) < (R : ℚ) := by exact_mod_cast hR
    have hrscQ : (0 : ℚ) < (out.2.1 : ℚ) := by exact_mod_cast h3
    have hrsQ : (0 : ℚ) ≤ (out.2.2 : ℚ) := by positivity
    refine ⟨by positivity, ?_, ?_, ?_⟩
    · rw [div_le_one hRQ]
      exact_mod_cast h1
    · exact div_nonneg
        (mul_nonneg (mul_nonneg (by norm_num) hpi) hrsQ) (le_of_lt hrscQ)
    · rw [div_le_iff₀ hrscQ]
      have hc : (out.2.2 : ℚ) ≤ (out.2.1 : ℚ) := by exact_mod_cast h2
      nlinarith

/-- Witness for claim C3 (amended): concrete sampler state with density 6,
ring count 6, web sample count 127, at absolute sample index 3, with
`355/113` standing in for the float constant `M_PI`. -/
theorem dof_disk_sample_get_bounds_witness :
    ((6 : ℕ) = 0 →
        dof_disk_sample_get (355 / 113) 6 6 127 3 = (0, 0)) ∧
      (0 < (6 : ℕ) →
        0 ≤ (dof_disk_sample_get (355 / 113) 6 6 127 3).1 ∧
          (dof_disk_sample_get (355 / 113) 6 6 127 3).1 ≤ 1 ∧
          0 ≤ (dof_disk_sample_get (355 / 113) 6 6 127 3).2 ∧
          (dof_disk_sample_get (355 / 113) 6 6 127 3).2 ≤ 2 * (355 / 113)) :=
  dof_disk_sample_get_bounds (355 / 113) 6 6 127 3 (by norm_num)
    (by norm_num [sampling_web_sample_count_get])

/-- Counterexample for claim C3: at the first absolute sample (index 1),
with ring count 1, density 6 and web sample count 7 (the state `init`
produces for two requested samples), the loop body never runs, so
`ring_sample = ring_sample_count = 1` and the returned angle is exactly
`2π` — not inside the half-open interval `[0, 2π)`.  Here `2π` is
`2 * pi_c` with `pi_c = 355/113`, the rational stand-in for `M_PI`. -/
theorem dof_disk_angle_cex :
    (dof_disk_sample_get (355 / 113) 6 1 7 1).2 = 2 * (355 / 113) ∧
      ¬ (dof_disk_sample_get (355 / 113) 6 1 7 1).2 < 2 * (355 / 113) := by
  have h : (dof_disk_sample_get (355 / 113) 6 1 7 1).2 = 2 * (355 / 113) := by
    norm_num [dof_disk_sample_get, dof_web_loop]
  exact ⟨h, by rw [h]; exact lt_irrefl _⟩

/-- Claim C10: at absolute sample index 1 the internal counter `s` is 0, the
ring-selection loop never executes, the ring stays 0 and the returned
radius is exactly 0 (the aperture center) for every ring count > 0, web
density and web sample count. -/
theorem dof_disk_first_sample_center (pi_c : ℚ) (d R dsc : ℕ) (hR : 0 < R) :
    (dof_disk_sample_get pi_c d R dsc 1).1 = 0 := by
  have hRne : R ≠ 0 := by omega
  simp [dof_disk_sample_get, hRne, dof_web_loop]

/-- Witness for claim C10: density 6, ring count 2, web sample count 19. -/
theorem dof_disk_first_sample_center_witness :
    (dof_disk_sample_get (355 / 113) 6 2 19 1).1 = 0 :=
  dof_disk_first_sample_center (355 / 113) 6 2 19 (by norm_num)

/- ------------------------------------------------------------------ -/
/- CDF builder and inverter (lines 351-381)                            -/
/- ------------------------------------------------------------------ -/

/-- The running cumulative sums of `cdf_from_curvemapping` before
normalization: `cdf[0] = 0`, `cdf[u+1] = cdf[u] + eval(curve, (u+1)/(N-1))`.
The external curve evaluator `BKE_curvemapping_evaluateF` is the abstract
function `f` (spec §1 lists the curve-mapping primitive as an external
collaborator that returns a scalar for an input coordinate). -/
def cdfEval (f : ℚ → ℚ) (N : ℕ) : ℕ → ℚ
  | 0 => 0
  | u + 1 => cdfEval f N u + f (((u : ℚ) + 1) / ((N : ℚ) - 1))

/-- `Sampling::cdf_from_curvemapping` (lines 351-366) producing a sequence
of length `N`: cumulative sums, in-place normalization by `cdf.last()`
(which divides every entry except the last by the original total), and the
final `cdf.last() = 1.0f` overwrite, expressed here by the `u = N - 1`
branch. -/
def cdf_from_curvemapping (f : ℚ → ℚ) (N : ℕ) : List ℚ :=
  (List.range N).map (fun u =>
    if u = N - 1 then 1 else cdfEval f N u / cdfEval f N (N - 1))

theorem cdfEval_nonneg (f : ℚ → ℚ) (N : ℕ)
    (hf : ∀ u : ℕ, u < N - 1 → 0 ≤ f (((u : ℚ) + 1) / ((N : ℚ) - 1))) :
    ∀ k, k ≤ N - 1 → 0 ≤ cdfEval f N k := by
  intro k
  induction k with
  | zero => intro _; exact le_refl 0
  | succ k ih =>
    intro hk
    have h1 : 0 ≤ cdfEval f N k := ih (by omega)
    have h2 : 0 ≤ f (((k : ℚ) + 1) / ((N : ℚ) - 1)) := hf k (by omega)
    rw [cdfEval]
    linarith

theorem cdfEval_mono (f : ℚ → ℚ) (N : ℕ)
    (hf : ∀ u : ℕ, u < N - 1 → 0 ≤ f (((u : ℚ) + 1) / ((N : ℚ) - 1))) :
    ∀ b a, a ≤ b → b ≤ N - 1 → cdfEval f N a ≤ cdfEval f N b := by
  intro b
  induction b with
  | zero =>
    intro a ha _
    have h : a = 0 := by omega
    rw [h]
  | succ b ih =>
    intro a ha hb
    rcases Nat.eq_or_lt_of_le ha with rfl | hlt
    · exact le_refl _
    · have h1 : cdfEval f N a ≤ cdfEval f N b := ih a (by omega) (by omega)
      have h2 : 0 ≤ f (((b : ℚ) + 1) / ((N : ℚ) - 1)) := hf b (by omega)
      rw [cdfEval]
      linarith

/-- Claim C2: for output length `N > 1` and a curve evaluator returning
non-negative values at the `N-1` sampled domain points, the produced CDF
starts at exactly 0, ends at exactly 1 and is nondecreasing. -/
theorem cdf_from_curvemapping_spec (f : ℚ → ℚ) (N : ℕ) (hN : 1 < N)
    (hf : ∀ u : ℕ, u < N - 1 → 0 ≤ f (((u : ℚ) + 1) / ((N : ℚ) - 1))) :
    (cdf_from_curvemapping f N).head? = some 0 ∧
      (cdf_from_curvemapping f N).getLast? = some 1 ∧
      List.Chain' (fun a b => a ≤ b) (cdf_from_curvemapping f N) := by
  obtain ⟨M, rfl⟩ : ∃ M, N = M + 2 := ⟨N - 2, by omega⟩
  have hsub : M + 2 - 1 = M + 1 := by omega
  have hT : 0 ≤ cdfEval f (M + 2) (M + 1) := by
    have := cdfEval_nonneg f (M + 2) hf (M + 1) (by omega)
    exact this
  refine ⟨?_, ?_, ?_⟩
  · rw [cdf_from_curvemapping, List.range_succ_eq_map, List.map_cons,
      List.head?_cons]
    have h0 : ¬ (0 = M + 2 - 1) := by omega
    rw [if_neg h0, cdfEval, zero_div]
  · rw [cdf_from_curvemapping, List.range_succ, List.map_append,
      List.map_cons, List.map_nil, List.getLast?_concat]
    rw [if_pos (by omega : M + 1 = M + 2 - 1)]
  · rw [cdf_from_curvemapping, List.chain'_map, List.chain'_range_succ]
    intro m hm
    have hmm : ¬ (m = M + 2 - 1) := by omega
    rw [if_neg hmm]
    rcases Nat.eq_or_lt_of_le (Nat.le_of_lt_succ hm) with rfl | hlt
    · rw [if_pos (by omega : m + 1 = m + 2 - 1)]
      rcases eq_or_lt_of_le hT with hz | hpos
      · rw [hsub, ← hz, div_zero]
        norm_num
      · rw [hsub, div_le_one hpos]
        exact cdfEval_mono f (m + 2) hf (m + 1) m (by omega) (by omega)
    · have hm1 : ¬ (m + 1 = M + 2 - 1) := by omega
      rw [if_neg hm1, hsub]
      exact div_le_div_of_nonneg_right
        (cdfEval_mono f (M + 2) hf (m + 1) m (by omega) (by omega)) hT

/-- Witness for claim C2: the constant evaluator 1 with output length 3. -/
theorem cdf_from_curvemapping_spec_witness :
    (cdf_from_curvemapping (fun _ => (1 : ℚ)) 3).head? = some 0 ∧
      (cdf_from_curvemapping (fun _ => (1 : ℚ)) 3).getLast? = some 1 ∧
      List.Chain' (fun a b => a ≤ b)
        (cdf_from_curvemapping (fun _ => (1 : ℚ)) 3) :=
  cdf_from_curvemapping_spec (fun _ => (1 : ℚ)) 3 (by norm_num)
    (fun _ _ => by norm_num)

/-- `clamp_f` of `BLI_math_base.h`: `min_ff(max_ff(value, min), max)`. -/
def clamp_f (value lo hi : ℚ) : ℚ := min (max value lo) hi

/-- The query point of iteration `u` of `cdf_invert` (line 372): the uniform
domain point clamped into `[1e-5, 1 - 1e-5]`. -/
def invert_point (M u : ℕ) : ℚ :=
  clamp_f ((u : ℚ) / ((M : ℚ) - 1)) (1 / 100000) (1 - 1 / 100000)

/-- The inner linear search of `cdf_invert` (lines 373-379): scan indices
`i, i+1, …` (`k` indices remain) for the first with `cdf[i] ≥ x`. -/
def cdf_search (cdf : List ℚ) (x : ℚ) : ℕ → ℕ → Option ℕ
  | 0, _ => none
  | k + 1, i =>
    if x ≤ cdf.getD i 0 then some i else cdf_search cdf x k (i + 1)

/-- `Sampling::cdf_invert` (lines 368-381).  An output slot the search never
writes (impossible for a normalized CDF, claim C8) is `none`; in the C code
that slot would simply keep its previous contents. -/
def cdf_invert (cdf : List ℚ) (M : ℕ) : List (Option ℚ) :=
  (List.range M).map (fun u =>
    let x := invert_point M u
    match cdf_search cdf x (cdf.length - 1) 1 with
    | some i =>
        some (((i : ℚ) +
            (x - cdf.getD i 0) / (cdf.getD i 0 - cdf.getD (i - 1) 0)) /
          ((cdf.length : ℚ) - 1))
    | none => none)

theorem cdf_search_eq_some (cdf : List ℚ) (x : ℚ) :
    ∀ (k i j : ℕ), cdf_search cdf x k i = some j →
      x ≤ cdf.getD j 0 ∧ i ≤ j ∧ j < i + k ∧
        ∀ m, i ≤ m → m < j → ¬ x ≤ cdf.getD m 0 := by
  intro k
  induction k with
  | zero => intro i j h; simp [cdf_search] at h
  | succ k ih =>
    intro i j h
    rw [cdf_search] at h
    by_cases hp : x ≤ cdf.getD i 0
    · rw [if_pos hp] at h
      cases h
      exact ⟨hp, le_refl _, by omega, fun m h1 h2 => absurd h2 (by omega)⟩
    · rw [if_neg hp] at h
      obtain ⟨ha, hb, hc, hd⟩ := ih (i + 1) j h
      refine ⟨ha, by omega, by omega, fun m h1 h2 => ?_⟩
      rcases Nat.eq_or_lt_of_le h1 with rfl | h1
      · exact hp
      · exact hd m h1 h2

theorem cdf_search_succeeds (cdf : List ℚ) (x : ℚ) :
    ∀ (k i j : ℕ), i ≤ j → j < i + k → x ≤ cdf.getD j 0 →
      ∃ j2, cdf_search cdf x k i = some j2 := by
  intro k
  induction k with
  | zero => intro i j h1 h2 _; omega
  | succ k ih =>
    intro i j h1 h2 h3
    rw [cdf_search]
    by_cases hp : x ≤ cdf.getD i 0
    · rw [if_pos hp]
      exact ⟨i, rfl⟩
    · rw [if_neg hp]
      have hij : i ≠ j := fun h => hp (h ▸ h3)
      exact ih (i + 1) j (by omega) (by omega) h3

theorem map_range_getD {α : Type} (M u : ℕ) (g : ℕ → α) (d : α) (h : u < M) :
    ((List.range M).map g).getD u d = g u := by
  rw [List.getD_eq_getElem?_getD, List.getElem?_map, List.getElem?_range h]
  rfl

theorem invert_point_bounds (M u : ℕ) :
    1 / 100000 ≤ invert_point M u ∧ invert_point M u ≤ 1 - 1 / 100000 :=
  ⟨le_min (le_max_right _ _) (by norm_num), min_le_right _ _⟩

/-- Claim C8: for a nondecreasing CDF with first element 0 and last element
exactly 1, and output length `M > 1`, every query of `cdf_invert` finds a
bracketing index whose pair is strictly increasing — no division by zero —
and every output entry is assigned. -/
theorem cdf_invert_safe (cdf : List ℚ) (M : ℕ) (hM : 1 < M)
    (hlen : 2 ≤ cdf.length)
    (h0 : cdf.getD 0 0 = 0)
    (h1 : cdf.getD (cdf.length - 1) 0 = 1)
    (hmono : ∀ j, j + 1 < cdf.length → cdf.getD j 0 ≤ cdf.getD (j + 1) 0) :
    ∀ u, u < M →
      ∃ i, cdf_search cdf (invert_point M u) (cdf.length - 1) 1 = some i ∧
        cdf.getD (i - 1) 0 < cdf.getD i 0 ∧
        ((cdf_invert cdf M).getD u none).isSome = true := by
  intro u hu
  obtain ⟨hxl, hxr⟩ := invert_point_bounds M u
  set x := invert_point M u with hx
  have hxlast : x ≤ cdf.getD (cdf.length - 1) 0 := by rw [h1]; linarith
  obtain ⟨i, hi⟩ := cdf_search_succeeds cdf x (cdf.length - 1) 1
    (cdf.length - 1) (by omega) (by omega) hxlast
  obtain ⟨ha, hb, hc, hd⟩ := cdf_search_eq_some cdf x _ _ _ hi
  have hstrict : cdf.getD (i - 1) 0 < cdf.getD i 0 := by
    rcases Nat.eq_or_lt_of_le hb with heq | hgt
    · have h10 : i - 1 = 0 := by omega
      rw [h10, h0]
      calc (0 : ℚ) < 1 / 100000 := by norm_num
        _ ≤ x := hxl
        _ ≤ cdf.getD i 0 := ha
    · have hm : ¬ x ≤ cdf.getD (i - 1) 0 := hd (i - 1) (by omega) (by omega)
      calc cdf.getD (i - 1) 0 < x := lt_of_not_le hm
        _ ≤ cdf.getD i 0 := ha
  refine ⟨i, hi, hstrict, ?_⟩
  rw [cdf_invert, map_range_getD _ _ _ _ hu]
  simp only [← hx, hi, Option.isSome_some]

/-- Witness for claim C8: the CDF `[0, 1/2, 1]` with output length 3 at
entry 1. -/
theorem cdf_invert_safe_witness :
    ∃ i, cdf_search [0, 1 / 2, 1] (invert_point 3 1)
          (([0, 1 / 2, 1] : List ℚ).length - 1) 1 = some i ∧
        ([0, 1 / 2, 1] : List ℚ).getD (i - 1) 0 <
          ([0, 1 / 2, 1] : List ℚ).getD i 0 ∧
        ((cdf_invert [0, 1 / 2, 1] 3).getD 1 none).isSome = true :=
  cdf_invert_safe [0, 1 / 2, 1] 3 (by norm_num) (by decide) (by decide)
    (by decide)
    (fun j hj => by
      have h2 : j < 2 := by simp at hj; omega
      interval_cases j <;>
        norm_num [List.getD_cons_succ, List.getD_cons_zero])
    1 (by norm_num)

/-- The identity CDF of length `N`: `cdf[i] = i / (N - 1)`. -/
def identity_cdf (N : ℕ) : List ℚ :=
  (List.range N).map (fun (i : ℕ) => (i : ℚ) / ((N : ℚ) - 1))

theorem clamp_abs_le (v : ℚ) (h0 : 0 ≤ v) (h1 : v ≤ 1) :
    |clamp_f v (1 / 100000) (1 - 1 / 100000) - v| ≤ 1 / 100000 := by
  unfold clamp_f
  rw [abs_le]
  constructor
  · rcases min_cases (max v (1 / 100000)) (1 - 1 / 100000) with ⟨hm, hm2⟩ | ⟨hm, hm2⟩ <;>
      rcases max_cases v (1 / 100000) with ⟨hx2, hx3⟩ | ⟨hx2, hx3⟩ <;> linarith
  · rcases min_cases (max v (1 / 100000)) (1 - 1 / 100000) with ⟨hm, hm2⟩ | ⟨hm, hm2⟩ <;>
      rcases max_cases v (1 / 100000) with ⟨hx2, hx3⟩ | ⟨hx2, hx3⟩ <;> linarith

/-- Claim C7: inverting the identity CDF of length `N` with `M = N` output
points gives, at every index `u`, a defined value within `1e-5` of the
identity mapping `u / (N-1)` — on interior points the value is exact, and
at the boundary the deviation is exactly the `1e-5` clamp. -/
theorem cdf_invert_identity (N : ℕ) (hN : 1 < N) :
    ∀ u, u < N →
      ∃ q, (cdf_invert (identity_cdf N) N).getD u none = some q ∧
        |q - (u : ℚ) / ((N : ℚ) - 1)| ≤ 1 / 100000 := by
  intro u hu
  have hlen : (identity_cdf N).length = N := by simp [identity_cdf]
  have hc : (0 : ℚ) < (N : ℚ) - 1 := by
    have h2 : (2 : ℚ) ≤ (N : ℚ) := by exact_mod_cast hN
    linarith
  have hcne : (N : ℚ) - 1 ≠ 0 := ne_of_gt hc
  obtain ⟨hxl, hxr⟩ := invert_point_bounds N u
  set x := invert_point N u with hx
  have hgetD : ∀ j, j < N →
      (identity_cdf N).getD j 0 = (j : ℚ) / ((N : ℚ) - 1) := fun j hj => by
    rw [identity_cdf, map_range_getD _ _ _ _ hj]
  have hone : 1 ≤ N := by omega
  have hcast : ((N - 1 : ℕ) : ℚ) = (N : ℚ) - 1 := by
    push_cast [hone]
    ring
  have hlast : x ≤ (identity_cdf N).getD (N - 1) 0 := by
    rw [hgetD (N - 1) (by omega), hcast, div_self hcne]
    linarith
  obtain ⟨i, hi⟩ := cdf_search_succeeds (identity_cdf N) x (N - 1) 1 (N - 1)
    (by omega) (by omega) hlast
  obtain ⟨ha, hb, hcc, hd⟩ := cdf_search_eq_some (identity_cdf N) x _ _ _ hi
  have hiN : i < N := by omega
  have hi1N : i - 1 < N := by omega
  have hicast : ((i - 1 : ℕ) : ℚ) = (i : ℚ) - 1 := by
    push_cast [hb]
    ring
  have hsearch : cdf_search (identity_cdf N) x ((identity_cdf N).length - 1) 1
      = some i := by rw [hlen]; exact hi
  refine ⟨((i : ℚ) +
      (x - (identity_cdf N).getD i 0) /
        ((identity_cdf N).getD i 0 - (identity_cdf N).getD (i - 1) 0)) /
    (((identity_cdf N).length : ℚ) - 1), ?_, ?_⟩
  · rw [cdf_invert, map_range_getD _ _ _ _ hu]
    simp only [← hx, hsearch]
  · rw [hgetD i hiN, hgetD (i - 1) hi1N, hicast, hlen]
    have hq : ((i : ℚ) + (x - (i : ℚ) / ((N : ℚ) - 1)) /
        ((i : ℚ) / ((N : ℚ) - 1) - ((i : ℚ) - 1) / ((N : ℚ) - 1))) /
        ((N : ℚ) - 1) = x := by
      rw [div_sub_div_same]
      have h1 : (i : ℚ) - ((i : ℚ) - 1) = 1 := by ring
      rw [h1, div_div_eq_mul_div, div_one]
      field_simp
    rw [hq]
    have hv0 : 0 ≤ (u : ℚ) / ((N : ℚ) - 1) := by positivity
    have hv1 : (u : ℚ) / ((N : ℚ) - 1) ≤ 1 := by
      rw [div_le_one hc]
      have h3 : (u : ℚ) + 1 ≤ (N : ℚ) := by exact_mod_cast hu
      linarith
    exact clamp_abs_le _ hv0 hv1

/-- Witness for claim C7: the identity CDF of length 3 at entry 1. -/
theorem cdf_invert_identity_witness :
    ∃ q, (cdf_invert (identity_cdf 3) 3).getD 1 none = some q ∧
      |q - ((1 : ℕ) : ℚ) / (((3 : ℕ) : ℚ) - 1)| ≤ 1 / 100000 :=
  cdf_invert_identity 3 (by norm_num) 1 (by norm_num)
